import Mathlib

/-!
Shallow embedding of the memoization / dynamic-variable / annotation-registry
core of `pytype/utils.py` (the `memoize` decorator, `DynamicVar`, and
`AnnotatingDecorator`), together with proofs of the specified properties.

Python dicts used as `eval` environments are modelled as functions
`String → Option α` built by successive insertion (`dictInsert`,
`dictUpdateList`), matching `dict.copy()` / `dict.update()` / item
assignment, where a later write to the same key wins.  The memoization
cache is modelled as an association list to which fresh keys are appended
(the code only ever writes a key that was just found absent).  The key
expression compiled by `compile(self.key, ..., mode="eval")` is, for every
key the module itself constructs, a parenthesised tuple of parameter
names; it is modelled as the list of those names, evaluated left to right
against the environment, with a missing name producing a `NameError`
(which is what `eval` raises at call time for a name that is not a
declared parameter).
-/

set_option autoImplicit false

namespace PytypeUtils

universe u v

/-- A Python dict serving as an `eval` environment: total lookup returning
`none` for an absent key. -/
def Env (α : Type u) : Type u := String → Option α

/-- The empty dict `{}`. -/
def emptyEnv {α : Type u} : Env α := fun _ => none

/-- Item assignment `d[k] = v`. -/
def dictInsert {α : Type u} (d : Env α) (k : String) (v : α) : Env α :=
  fun n => if n = k then some v else d n

/-- `d.update(kvs)` / building `dict(kvs)`: the writes happen in list
order, so the last write to a key wins. -/
def dictUpdateList {α : Type u} (d : Env α) (kvs : List (String × α)) : Env α :=
  kvs.foldl (fun d kv => dictInsert d kv.1 kv.2) d

/-- The value the last write to `n` in `kvs` leaves behind, if any
(specification of `dictUpdateList`). -/
def revFind {α : Type u} : List (String × α) → String → Option α
  | [], _ => none
  | (k, v) :: rest, n =>
    match revFind rest n with
    | some w => some w
    | none => if k = n then some v else none

/-- Evaluation of the compiled key expression `"(n₁, ..., nₖ)"` against an
environment: each name is looked up left to right; a name absent from the
environment raises a `NameError` at evaluation time. -/
def evalNames {α : Type u} (env : Env α) : List String → Except String (List α)
  | [] => .ok []
  | n :: ns =>
    match env n with
    | none => .error ("NameError: name " ++ n ++ " is not defined")
    | some v =>
      match evalNames env ns with
      | .error e => .error e
      | .ok vs => .ok (v :: vs)

/-- First-match lookup in the memoization cache (`memoized.get(key, ...)`;
the cache only ever holds one entry per key, see `memoCall`). -/
def cacheLookup {κ : Type u} {β : Type v} [DecidableEq κ] :
    List (κ × β) → κ → Option β
  | [], _ => none
  | (k, v) :: rest, k' => if k = k' then some v else cacheLookup rest k'

/-- `memoized[key] = result`, performed only for a key just found absent,
so modelled as appending a fresh entry. -/
def cacheInsert {κ : Type u} {β : Type v} (c : List (κ × β)) (k : κ) (v : β) :
    List (κ × β) :=
  c ++ [(k, v)]

-- `_arg_names(f)` returns `f.__code__.co_varnames[:co_argcount]`, the
-- declared positional parameter names in declaration order; here it is the
-- `argnames : List String` carried by the wrapper.

/-- The `defaults` dict computed at wrap time:
`dict(zip(argnames[-len(f.__defaults__):], f.__defaults__))` when
`f.__defaults__` is non-empty, `{}` otherwise. -/
def mkDefaults {α : Type u} (argnames : List String) : List α → List (String × α)
  | [] => []
  | d :: ds =>
    (argnames.drop (argnames.length - (d :: ds).length)).zip (d :: ds)

/-- The mutable per-wrapper state: the `memoized` cache dict and the
`shared_dict` scratch dict reused across calls on the fast path. -/
structure MemoState (α : Type u) (κ : Type u) (V : Type v) where
  cache : List (κ × V)
  shared : Env α

/-- State at wrap time: `memoized = {}` and `shared_dict = {}`. -/
def initialState {α κ : Type u} {V : Type v} : MemoState α κ V :=
  { cache := [], shared := emptyEnv }

/-- The environment the key program is evaluated against on the slow path
(`kwargs or defaults` truthy):
`args = defaults.copy(); args.update(dict(zip(argnames, posargs)));
args.update(kwargs)`. -/
def slowEnv {α : Type u} (argnames : List String) (defaults : List (String × α))
    (posargs : List α) (kwargs : List (String × α)) : Env α :=
  dictUpdateList (dictUpdateList (dictUpdateList emptyEnv defaults)
    (argnames.zip posargs)) kwargs

/-- Tail of `memoize.__call__.call` after the key environment is in
place: evaluate the key program (an `eval` failure propagates, the cache
untouched and `f` not invoked); on a hit return the cached result without
invoking `f`; on a miss invoke `f`, store its result (unless `f` raised,
in which case the error propagates with no entry written).  The returned
`Bool` records whether `f` was invoked. -/
def finishCall {α κ : Type u} {V : Type v} [DecidableEq κ]
    (keyProg : Env α → Except String κ)
    (f : List α → List (String × α) → Except String V)
    (st : MemoState α κ V) (env : Env α)
    (posargs : List α) (kwargs : List (String × α)) :
    Except String V × MemoState α κ V × Bool :=
  match keyProg env with
  | .error e => (.error e, st, false)
  | .ok key =>
    match cacheLookup st.cache key with
    | some result => (.ok result, st, false)
    | none =>
      match f posargs kwargs with
      | .error e => (.error e, st, true)
      | .ok result =>
        (.ok result, { st with cache := cacheInsert st.cache key result }, true)

/-- One invocation of the memoized wrapper `call(*posargs, **kwargs)`.
With keyword arguments or declared defaults the slow path builds a fresh
argument dict; otherwise the fast path overwrites every parameter's slot
in the shared scratch dict (`shared_dict[arg] = posargs[pos]` for every
`(pos, arg)` in `zip(range(co_argcount), argnames)`, an `IndexError` when
fewer positional arguments than declared parameters are supplied) and
evaluates the key against it. -/
def memoCall {α κ : Type u} {V : Type v} [DecidableEq κ]
    (keyProg : Env α → Except String κ)
    (f : List α → List (String × α) → Except String V)
    (argnames : List String) (defaults : List (String × α))
    (st : MemoState α κ V)
    (posargs : List α) (kwargs : List (String × α)) :
    Except String V × MemoState α κ V × Bool :=
  if !kwargs.isEmpty || !defaults.isEmpty then
    finishCall keyProg f st (slowEnv argnames defaults posargs kwargs)
      posargs kwargs
  else if argnames.length ≤ posargs.length then
    let shared2 := dictUpdateList st.shared (argnames.zip posargs)
    finishCall keyProg f { st with shared := shared2 } shared2 posargs kwargs
  else
    (.error "IndexError: tuple index out of range", st, false)

/-- The compiled wrapper produced by `memoize(key)(f)`: the key program
(compiled eagerly at wrap time, stored unevaluated), the parameter names
and the captured defaults. -/
structure Wrapper (α : Type u) (V : Type v) where
  keyProg : Env α → Except String (List α)
  argnames : List String
  defaults : List (String × α)

/-- `memoize(key_expression)(f)`: compiling the tuple-of-names key
expression is total — no evaluation happens at wrap time. -/
def memoizeWithKey {α : Type u} {V : Type v} (rule : List String)
    (argnames : List String) (defaults : List (String × α)) : Wrapper α V :=
  { keyProg := fun env => evalNames env rule
    argnames := argnames
    defaults := defaults }

/-- `memoize(f)` with no explicit rule (`memoize.__new__` with a function
argument): the key becomes `"(" + ", ".join(_arg_names(f)) + ")"`, the
tuple of all declared parameter names. -/
def memoizeDefault {α : Type u} (V : Type v) (argnames : List String)
    (defaults : List (String × α)) : Wrapper α V :=
  memoizeWithKey argnames argnames defaults

/-- Invoke a wrapper on a state. -/
def Wrapper.call {α : Type u} {V : Type v} [DecidableEq α] (w : Wrapper α V)
    (f : List α → List (String × α) → Except String V)
    (st : MemoState α (List α) V)
    (posargs : List α) (kwargs : List (String × α)) :
    Except String V × MemoState α (List α) V × Bool :=
  memoCall w.keyProg f w.argnames w.defaults st posargs kwargs

/-!
`DynamicVar`: a dynamically scoped, per-thread variable.  Its state is the
`threading.local()` storage: for each thread id, either `none` (this
thread has not touched the variable yet) or the thread's list of bound
values.  `_values()` lazily creates the list `[None]` for the calling
thread; `bind` appends to / pops from the calling thread's list; `get`
reads the last element.  Stack elements are `Option V` with `none`
standing for Python `None`, the sentinel default.
-/

/-- The `threading.local()` storage of one `DynamicVar`: the per-thread
`values` attribute, absent until that thread first touches the variable. -/
structure DynVarState (V : Type u) where
  locals : Nat → Option (List (Option V))

/-- State of a freshly constructed `DynamicVar`: no thread has a `values`
list yet. -/
def dynInit (V : Type u) : DynVarState V := ⟨fun _ => none⟩

/-- Overwrite thread `t`'s `values` list. -/
def setStack {V : Type u} (s : DynVarState V) (t : Nat)
    (vs : List (Option V)) : DynVarState V :=
  ⟨fun u => if u = t then some vs else s.locals u⟩

/-- `_values()` called from thread `t`: return the thread's list, lazily
creating `[None]` — a stack with the initial sentinel — on first touch. -/
def valuesOf {V : Type u} (s : DynVarState V) (t : Nat) :
    List (Option V) × DynVarState V :=
  match s.locals t with
  | some vs => (vs, s)
  | none => ([none], setStack s t [none])

/-- `get()` from thread `t`: `self._values()[-1]`, the last element of the
calling thread's stack (`none` in the outer `Option` would be the
`IndexError` of indexing an empty list, which never occurs in reachable
states). -/
def dynGet {V : Type u} (s : DynVarState V) (t : Nat) : Option (Option V) :=
  (valuesOf s t).1.getLast?

/-- The state after `get()` from thread `t` (its only effect is the lazy
creation inside `_values()`). -/
def dynGetState {V : Type u} (s : DynVarState V) (t : Nat) : DynVarState V :=
  (valuesOf s t).2

/-- The push half of `bind(value)` on thread `t`: `values = self._values()`
followed by `values.append(value)`. -/
def pushBinding {V : Type u} (s : DynVarState V) (t : Nat) (v : Option V) :
    DynVarState V :=
  let (vs, s1) := valuesOf s t
  setStack s1 t (vs ++ [v])

/-- The `finally: values.pop()` half of `bind` on thread `t`: drop the last
element of the thread's current stack. -/
def popBinding {V : Type u} (s : DynVarState V) (t : Nat) : DynVarState V :=
  setStack s t (((s.locals t).getD []).dropLast)

/-- `with var.bind(value): body` executed on thread `t`: push the binding,
run the body (which transforms the state and either returns normally or
raises), then pop on either exit path — the pop sits in a `finally`
block of the context manager. -/
def dynBind {V : Type u} {A : Type v} (s : DynVarState V) (t : Nat)
    (v : Option V)
    (body : DynVarState V → DynVarState V × Except String A) :
    DynVarState V × Except String A :=
  let s1 := pushBinding s t v
  let (s2, r) := body s1
  (popBinding s2 t, r)

/-!
`AnnotatingDecorator`: a registry mapping a function's `__name__` to an
attached value.  The `lookup` dict is modelled as an association list with
Python-dict write semantics (`dictSet`: overwrite in place if the key is
present, append otherwise); absence is queried with `dict.get`-style
lookup returning `none`.
-/

/-- A named Python function: its `__name__` and its behaviour. -/
structure PyFunc (γ : Type u) (δ : Type v) where
  name : String
  fn : γ → δ

/-- `d[k] = v` on a dict kept as an association list: replace the existing
entry for `k` or append a fresh one. -/
def dictSet {κ : Type u} {β : Type v} [DecidableEq κ] :
    List (κ × β) → κ → β → List (κ × β)
  | [], k, v => [(k, v)]
  | (k', v') :: rest, k, v =>
    if k' = k then (k, v) :: rest else (k', v') :: dictSet rest k v

/-- An `AnnotatingDecorator` instance: its `lookup` dict. -/
structure AnnotatingDecorator (β : Type v) where
  lookup : List (String × β)

/-- A freshly constructed decorator: `self.lookup = {}`. -/
def adInit {β : Type v} : AnnotatingDecorator β := ⟨[]⟩

/-- `decorator(value)` applied to `f` (the inner `decorate`): record
`self.lookup[f.__name__] = value` and return `f` itself. -/
def adRegister {β : Type v} {γ : Type u} {δ : Type u}
    (d : AnnotatingDecorator β) (value : β) (f : PyFunc γ δ) :
    PyFunc γ δ × AnnotatingDecorator β :=
  (f, ⟨dictSet d.lookup f.name value⟩)

/-- Query the `lookup` dict for a name without raising (`dict.get`):
`none` is the explicit absent signal. -/
def adLookup {β : Type v} (d : AnnotatingDecorator β) (n : String) :
    Option β :=
  cacheLookup d.lookup n

/-! ### Lemmas about the dict model -/

/-- `dictUpdateList` is specified by `revFind`: the last write wins, and a
key never written keeps its prior value. -/
theorem dictUpdateList_apply {α : Type u} (kvs : List (String × α))
    (d : Env α) (n : String) :
    dictUpdateList d kvs n =
      match revFind kvs n with
      | some v => some v
      | none => d n := by
  induction kvs generalizing d with
  | nil => rfl
  | cons kv rest ih =>
    obtain ⟨k, v⟩ := kv
    show dictUpdateList (dictInsert d k v) rest n = _
    rw [ih]
    simp only [revFind]
    cases revFind rest n with
    | some w => rfl
    | none =>
      simp only [dictInsert]
      by_cases h : n = k
      · subst h; simp
      · rw [if_neg h, if_neg (fun hkn : k = n => h hkn.symm)]

/-- Applying the same batch of writes twice leaves the dict where one
application left it (the fast path may re-fill `shared_dict` with the same
values). -/
theorem dictUpdateList_idem {α : Type u} (d : Env α)
    (kvs : List (String × α)) :
    dictUpdateList (dictUpdateList d kvs) kvs = dictUpdateList d kvs := by
  funext n
  rw [dictUpdateList_apply, dictUpdateList_apply]
  cases revFind kvs n <;> rfl

/-- A key that is no pair's first component is not written. -/
theorem revFind_eq_none {α : Type u} (kvs : List (String × α)) (n : String)
    (h : ∀ p ∈ kvs, p.1 ≠ n) : revFind kvs n = none := by
  induction kvs with
  | nil => rfl
  | cons kv rest ih =>
    obtain ⟨k, v⟩ := kv
    simp only [revFind]
    rw [ih (fun p hp => h p (List.mem_cons_of_mem _ hp))]
    simp [h (k, v) (List.mem_cons_self _ _)]

/-- First components of `zip` are elements of the first list. -/
theorem fst_mem_left_of_mem_zip {α : Type u} {β : Type v}
    {l₁ : List α} {l₂ : List β} {p : α × β} (h : p ∈ l₁.zip l₂) :
    p.1 ∈ l₁ :=
  List.of_mem_zip h |>.1

/-- Unfolding lemma for `zip` that keeps the `.zip` notation. -/
theorem zip_cons_cons {α : Type u} {β : Type v} (a : α) (b : β)
    (l₁ : List α) (l₂ : List β) :
    (a :: l₁).zip (b :: l₂) = (a, b) :: l₁.zip l₂ := rfl

/-- In the zip of a duplicate-free name list with a value list, looking up
the `j`-th name (with `j` within both lists) yields the `j`-th value. -/
theorem revFind_zip_get {α : Type u} (an : List String) (p : List α)
    (hnd : an.Nodup) (j : Nat) (hj : j < an.length) (hjp : j < p.length) :
    revFind (an.zip p) an[j] = some p[j] := by
  induction an generalizing p j with
  | nil => exact absurd hj (Nat.not_lt_zero j)
  | cons a an' ih =>
    cases p with
    | nil => exact absurd hjp (Nat.not_lt_zero j)
    | cons x p' =>
      cases j with
      | zero =>
        rw [zip_cons_cons]
        simp only [revFind, List.getElem_cons_zero]
        rw [revFind_eq_none]
        · simp
        · intro q hq hq1
          have : q.1 ∈ an' := fst_mem_left_of_mem_zip hq
          rw [hq1] at this
          exact (List.nodup_cons.mp hnd).1 this
      | succ i =>
        rw [zip_cons_cons]
        simp only [revFind, List.getElem_cons_succ]
        rw [ih p' (List.nodup_cons.mp hnd).2 i (Nat.lt_of_succ_lt_succ hj)
          (Nat.lt_of_succ_lt_succ hjp)]

/-- In the zip of a duplicate-free name list with a value list, a name
whose index lies beyond the value list is not written at all. -/
theorem revFind_zip_get_none {α : Type u} (an : List String) (p : List α)
    (hnd : an.Nodup) (j : Nat) (hj : j < an.length) (hjp : p.length ≤ j) :
    revFind (an.zip p) an[j] = none := by
  induction an generalizing p j with
  | nil => exact absurd hj (Nat.not_lt_zero j)
  | cons a an' ih =>
    cases p with
    | nil => simp [List.zip_nil_right, revFind]
    | cons x p' =>
      cases j with
      | zero => exact absurd hjp (by simp)
      | succ i =>
        rw [zip_cons_cons]
        simp only [revFind, List.getElem_cons_succ]
        have hi : i < an'.length := Nat.lt_of_succ_lt_succ hj
        rw [ih p' (List.nodup_cons.mp hnd).2 i hi (Nat.le_of_succ_le_succ hjp)]
        have hmem : an'[i] ∈ an' := List.getElem_mem _
        have : a ≠ an'[i] := fun h => (List.nodup_cons.mp hnd).1 (h ▸ hmem)
        simp [this]

/-- Fresh-key cache insertion is found by lookup. -/
theorem cacheLookup_insert_self {κ : Type u} {β : Type v} [DecidableEq κ]
    (c : List (κ × β)) (k : κ) (v : β) (h : cacheLookup c k = none) :
    cacheLookup (cacheInsert c k v) k = some v := by
  induction c with
  | nil => simp [cacheInsert, cacheLookup]
  | cons kv rest ih =>
    obtain ⟨k', v'⟩ := kv
    simp only [cacheLookup] at h
    by_cases hk : k' = k
    · rw [if_pos hk] at h; exact absurd h (by simp)
    · rw [if_neg hk] at h
      simpa [cacheInsert, cacheLookup, hk] using ih h

/-- Lookup of a different key passes over a cache entry unchanged. -/
theorem cacheLookup_insert_other {κ : Type u} {β : Type v} [DecidableEq κ]
    (c : List (κ × β)) (k k' : κ) (v : β) (h : k ≠ k') :
    cacheLookup (cacheInsert c k v) k' = cacheLookup c k' := by
  induction c with
  | nil => simp [cacheInsert, cacheLookup, h]
  | cons kv rest ih =>
    obtain ⟨a, b⟩ := kv
    by_cases ha : a = k'
    · simp [cacheInsert, cacheLookup, ha]
    · simpa [cacheInsert, cacheLookup, ha] using ih

/-! ### Lemmas about key-expression evaluation -/

/-- Key evaluation only reads the names appearing in the expression. -/
theorem evalNames_congr {α : Type u} (ns : List String) (env₁ env₂ : Env α)
    (h : ∀ n ∈ ns, env₁ n = env₂ n) :
    evalNames env₁ ns = evalNames env₂ ns := by
  induction ns with
  | nil => rfl
  | cons n ns ih =>
    simp only [evalNames]
    rw [h n (List.mem_cons_self _ _),
      ih (fun m hm => h m (List.mem_cons_of_mem _ hm))]

/-- If the environment binds the `j`-th name to the `j`-th value for every
index, the tuple expression evaluates to exactly that value list. -/
theorem evalNames_ok_of_pointwise {α : Type u} (ns : List String)
    (vs : List α) (env : Env α) (hlen : ns.length = vs.length)
    (h : ∀ j (hj : j < ns.length) (hj2 : j < vs.length),
      env ns[j] = some vs[j]) :
    evalNames env ns = .ok vs := by
  induction ns generalizing vs with
  | nil => cases vs with
    | nil => rfl
    | cons v vs => exact absurd hlen (by simp)
  | cons n ns ih =>
    cases vs with
    | nil => exact absurd hlen (by simp)
    | cons v vs =>
      simp only [evalNames]
      have h0 := h 0 (by simp) (by simp)
      simp only [List.getElem_cons_zero] at h0
      rw [h0]
      rw [ih vs (by simpa using hlen)
        (fun j hj hj2 => by
          simpa using h (j + 1) (by simpa using hj) (by simpa using hj2))]

/-- A name bound to nothing anywhere in the expression makes evaluation
raise (some) `NameError`. -/
theorem evalNames_error_of_missing {α : Type u} (ns : List String)
    (env : Env α) (n : String) (hn : n ∈ ns) (henv : env n = none) :
    ∃ e, evalNames env ns = .error e := by
  induction ns with
  | nil => exact absurd hn (List.not_mem_nil n)
  | cons m ns ih =>
    simp only [evalNames]
    rcases List.mem_cons.mp hn with h | h
    · subst h; rw [henv]; exact ⟨_, rfl⟩
    · cases hm : env m with
      | none => exact ⟨_, rfl⟩
      | some v =>
        obtain ⟨e, he⟩ := ih h
        rw [he]
        exact ⟨e, rfl⟩

/-! ### Unfolding lemmas for the memoized call -/

/-- Key-evaluation failure: the error propagates, the cache is untouched
and the wrapped function is not invoked. -/
theorem finishCall_key_error {α κ : Type u} {V : Type v} [DecidableEq κ]
    (keyProg : Env α → Except String κ)
    (f : List α → List (String × α) → Except String V)
    (st : MemoState α κ V) (env : Env α) (p : List α)
    (kw : List (String × α)) (e : String) (hk : keyProg env = .error e) :
    finishCall keyProg f st env p kw = (.error e, st, false) := by
  unfold finishCall; rw [hk]

/-- Cache hit: the stored result is returned, the state unchanged, the
wrapped function not invoked. -/
theorem finishCall_hit {α κ : Type u} {V : Type v} [DecidableEq κ]
    (keyProg : Env α → Except String κ)
    (f : List α → List (String × α) → Except String V)
    (st : MemoState α κ V) (env : Env α) (p : List α)
    (kw : List (String × α)) (k : κ) (v : V)
    (hk : keyProg env = .ok k) (hc : cacheLookup st.cache k = some v) :
    finishCall keyProg f st env p kw = (.ok v, st, false) := by
  unfold finishCall; rw [hk]; dsimp only; rw [hc]

/-- Cache miss with a normal return: the wrapped function is invoked and
its result stored under the derived key. -/
theorem finishCall_miss_ok {α κ : Type u} {V : Type v} [DecidableEq κ]
    (keyProg : Env α → Except String κ)
    (f : List α → List (String × α) → Except String V)
    (st : MemoState α κ V) (env : Env α) (p : List α)
    (kw : List (String × α)) (k : κ) (v : V)
    (hk : keyProg env = .ok k) (hc : cacheLookup st.cache k = none)
    (hf : f p kw = .ok v) :
    finishCall keyProg f st env p kw =
      (.ok v, { st with cache := cacheInsert st.cache k v }, true) := by
  unfold finishCall; rw [hk]; dsimp only; rw [hc]; dsimp only; rw [hf]

/-- Cache miss where the wrapped function raises: the error propagates
unchanged and no cache entry is written. -/
theorem finishCall_miss_error {α κ : Type u} {V : Type v} [DecidableEq κ]
    (keyProg : Env α → Except String κ)
    (f : List α → List (String × α) → Except String V)
    (st : MemoState α κ V) (env : Env α) (p : List α)
    (kw : List (String × α)) (k : κ) (e : String)
    (hk : keyProg env = .ok k) (hc : cacheLookup st.cache k = none)
    (hf : f p kw = .error e) :
    finishCall keyProg f st env p kw = (.error e, st, true) := by
  unfold finishCall; rw [hk]; dsimp only; rw [hc]; dsimp only; rw [hf]

/-- Inversion: a successful call derived some key `k`, and afterwards the
cache holds the returned value under `k`; the scratch dict is whatever it
was when `finishCall` started. -/
theorem finishCall_ok_inv {α κ : Type u} {V : Type v} [DecidableEq κ]
    (keyProg : Env α → Except String κ)
    (f : List α → List (String × α) → Except String V)
    (st : MemoState α κ V) (env : Env α) (p : List α)
    (kw : List (String × α)) (v : V)
    (h : (finishCall keyProg f st env p kw).1 = .ok v) :
    ∃ k, keyProg env = .ok k ∧
      cacheLookup (finishCall keyProg f st env p kw).2.1.cache k = some v ∧
      (finishCall keyProg f st env p kw).2.1.shared = st.shared := by
  cases hk : keyProg env with
  | error e => rw [finishCall_key_error _ _ _ _ _ _ _ hk] at h ⊢; cases h
  | ok k =>
    refine ⟨k, rfl, ?_⟩
    cases hc : cacheLookup st.cache k with
    | some r =>
      rw [finishCall_hit _ _ _ _ _ _ _ _ hk hc] at h ⊢
      obtain rfl : r = v := by cases h; rfl
      exact ⟨hc, rfl⟩
    | none =>
      cases hf : f p kw with
      | error e =>
        rw [finishCall_miss_error _ _ _ _ _ _ _ _ hk hc hf] at h; cases h
      | ok r =>
        rw [finishCall_miss_ok _ _ _ _ _ _ _ _ hk hc hf] at h ⊢
        obtain rfl : r = v := by cases h; rfl
        exact ⟨cacheLookup_insert_self _ _ _ hc, rfl⟩

/-- Unfolding `memoCall` on the slow path. -/
theorem memoCall_slow {α κ : Type u} {V : Type v} [DecidableEq κ]
    (keyProg : Env α → Except String κ)
    (f : List α → List (String × α) → Except String V)
    (an : List String) (defaults : List (String × α))
    (st : MemoState α κ V) (p : List α) (kw : List (String × α))
    (h : (!kw.isEmpty || !defaults.isEmpty) = true) :
    memoCall keyProg f an defaults st p kw =
      finishCall keyProg f st (slowEnv an defaults p kw) p kw := by
  unfold memoCall; rw [if_pos h]

/-- Unfolding `memoCall` on the fast path (no kwargs, no defaults, enough
positional arguments): the scratch dict is refilled and becomes both the
evaluation environment and the new `shared` component. -/
theorem memoCall_fast {α κ : Type u} {V : Type v} [DecidableEq κ]
    (keyProg : Env α → Except String κ)
    (f : List α → List (String × α) → Except String V)
    (an : List String) (defaults : List (String × α))
    (st : MemoState α κ V) (p : List α) (kw : List (String × α))
    (h : (!kw.isEmpty || !defaults.isEmpty) = false)
    (hlen : an.length ≤ p.length) :
    memoCall keyProg f an defaults st p kw =
      finishCall keyProg f
        { st with shared := dictUpdateList st.shared (an.zip p) }
        (dictUpdateList st.shared (an.zip p)) p kw := by
  unfold memoCall
  rw [if_neg (by simp [h]), if_pos hlen]

/-- Unfolding `memoCall` when the fast path is taken with too few
positional arguments (`posargs[pos]` raises `IndexError`). -/
theorem memoCall_short {α κ : Type u} {V : Type v} [DecidableEq κ]
    (keyProg : Env α → Except String κ)
    (f : List α → List (String × α) → Except String V)
    (an : List String) (defaults : List (String × α))
    (st : MemoState α κ V) (p : List α) (kw : List (String × α))
    (h : (!kw.isEmpty || !defaults.isEmpty) = false)
    (hlen : ¬ an.length ≤ p.length) :
    memoCall keyProg f an defaults st p kw =
      (.error "IndexError: tuple index out of range", st, false) := by
  unfold memoCall
  rw [if_neg (by simp [h]), if_neg hlen]

/-! ### C1 -/

/-- C1: once a call of the memoized wrapper with a fixed argument list
returns normally, the result is stored in the cache under the derived key,
and repeating the call with the same arguments returns the same result
without invoking the wrapped function and without changing the wrapper
state. -/
theorem memoize_second_call_cached {α κ : Type u} {V : Type v} [DecidableEq κ]
    (keyProg : Env α → Except String κ)
    (f : List α → List (String × α) → Except String V)
    (an : List String) (defaults : List (String × α))
    (st0 : MemoState α κ V) (p : List α) (kw : List (String × α)) (v : V)
    (h1 : (memoCall keyProg f an defaults st0 p kw).1 = .ok v) :
    (∃ k, cacheLookup (memoCall keyProg f an defaults st0 p kw).2.1.cache k
        = some v) ∧
    memoCall keyProg f an defaults
        (memoCall keyProg f an defaults st0 p kw).2.1 p kw
      = (.ok v, (memoCall keyProg f an defaults st0 p kw).2.1, false) := by
  cases hb : (!kw.isEmpty || !defaults.isEmpty) with
  | true =>
    rw [memoCall_slow _ _ _ _ _ _ _ hb] at h1 ⊢
    obtain ⟨k, hk, hck, _⟩ := finishCall_ok_inv _ _ _ _ _ _ _ h1
    refine ⟨⟨k, hck⟩, ?_⟩
    rw [memoCall_slow _ _ _ _ _ _ _ hb]
    exact finishCall_hit _ _ _ _ _ _ _ _ hk hck
  | false =>
    by_cases hlen : an.length ≤ p.length
    · rw [memoCall_fast _ _ _ _ _ _ _ hb hlen] at h1 ⊢
      cases hk : keyProg (dictUpdateList st0.shared (an.zip p)) with
      | error e =>
        rw [finishCall_key_error _ _ _ _ _ _ _ hk] at h1
        cases h1
      | ok k =>
        cases hc : cacheLookup st0.cache k with
        | some r =>
          have hc' : cacheLookup
              ({ st0 with shared := dictUpdateList st0.shared (an.zip p) } :
                MemoState α κ V).cache k = some r := hc
          rw [finishCall_hit _ _ _ _ _ _ _ _ hk hc'] at h1 ⊢
          obtain rfl : r = v := by cases h1; rfl
          refine ⟨⟨k, hc'⟩, ?_⟩
          rw [memoCall_fast _ _ _ _ _ _ _ hb hlen]
          simp only [dictUpdateList_idem]
          exact finishCall_hit _ _ _ _ _ _ _ _ hk hc'
        | none =>
          have hc' : cacheLookup
              ({ st0 with shared := dictUpdateList st0.shared (an.zip p) } :
                MemoState α κ V).cache k = none := hc
          cases hf : f p kw with
          | error e =>
            rw [finishCall_miss_error _ _ _ _ _ _ _ _ hk hc' hf] at h1
            cases h1
          | ok r =>
            rw [finishCall_miss_ok _ _ _ _ _ _ _ _ hk hc' hf] at h1 ⊢
            obtain rfl : r = v := by cases h1; rfl
            have hck : cacheLookup
                ({ { st0 with shared := dictUpdateList st0.shared (an.zip p) }
                    with cache := cacheInsert st0.cache k r } :
                  MemoState α κ V).cache k = some r :=
              cacheLookup_insert_self _ _ _ hc
            refine ⟨⟨k, hck⟩, ?_⟩
            rw [memoCall_fast _ _ _ _ _ _ _ hb hlen]
            simp only [dictUpdateList_idem]
            exact finishCall_hit _ _ _ _ _ _ _ _ hk hck
    · rw [memoCall_short _ _ _ _ _ _ _ hb hlen] at h1
      cases h1

/-- C1 witness: memoize `square(x) = x*x`; `square(4)` computes `16`, and
the repeated call returns the cached `16` without re-running `square`. -/
theorem memoize_second_call_cached_witness :
    (∃ k, cacheLookup
        (memoCall (fun env => evalNames env ["x"])
          (fun p _ => Except.ok (p.headD 0 * p.headD 0)) ["x"] []
          initialState [4] []).2.1.cache k = some 16) ∧
    memoCall (fun env => evalNames env ["x"])
        (fun p _ => Except.ok (p.headD 0 * p.headD 0)) ["x"] []
        (memoCall (fun env => evalNames env ["x"])
          (fun p _ => Except.ok (p.headD 0 * p.headD 0)) ["x"] []
          initialState [4] []).2.1 [4] []
      = (.ok 16,
         (memoCall (fun env => evalNames env ["x"])
           (fun p _ => Except.ok (p.headD 0 * p.headD 0)) ["x"] []
           initialState [4] []).2.1, false) :=
  memoize_second_call_cached (fun env => evalNames env ["x"])
    (fun p _ => Except.ok (p.headD 0 * p.headD 0)) ["x"] []
    initialState [4] [] 16 rfl

/-! ### C2 -/

/-- The key environment a fast-path call builds binds each parameter name
to the positional argument at its declared position. -/
theorem fastEnv_getElem {α : Type u} (an : List String) (p : List α)
    (shared : Env α) (hnd : an.Nodup) (j : Nat) (hj : j < an.length)
    (hjp : j < p.length) :
    dictUpdateList shared (an.zip p) an[j] = some p[j] := by
  rw [dictUpdateList_apply, revFind_zip_get an p hnd j hj hjp]

/-- A call passing a trailing run of arguments by keyword still binds
each declared parameter name to its value, so the default key rule
evaluates to the values in declaration order. -/
theorem slowEnv_kwargs_key {α : Type u} (anp ans : List String)
    (p1 ext : List α) (kw : List (String × α))
    (hnd : (anp ++ ans).Nodup) (hp : anp.length = p1.length)
    (he : ans.length = ext.length)
    (hkwa : ∀ q ∈ kw, q.1 ∉ anp)
    (hkw : ∀ q ∈ ans.zip ext, revFind kw q.1 = some q.2) :
    evalNames (slowEnv (anp ++ ans) [] p1 kw) (anp ++ ans)
      = .ok (p1 ++ ext) := by
  have hlen : (anp ++ ans).length = (p1 ++ ext).length := by
    simp [hp, he]
  refine evalNames_ok_of_pointwise _ _ _ hlen (fun j hj hj2 => ?_)
  show dictUpdateList (dictUpdateList (dictUpdateList emptyEnv [])
      ((anp ++ ans).zip p1)) kw _ = _
  rw [dictUpdateList_apply kw]
  by_cases hcase : j < p1.length
  · have hja : j < anp.length := hp ▸ hcase
    have hmem : (anp ++ ans)[j] ∈ anp := by
      rw [List.getElem_append_left hja]
      exact List.getElem_mem hja
    rw [revFind_eq_none kw _ (fun q hq hq1 => hkwa q hq (hq1 ▸ hmem))]
    rw [dictUpdateList_apply ((anp ++ ans).zip p1),
      revFind_zip_get (anp ++ ans) p1 hnd j hj hcase]
    rw [List.getElem_append_left hcase]
  · push_neg at hcase
    have hjp : anp.length ≤ j := hp ▸ hcase
    have hians : j - anp.length < ans.length := by
      have := hj; simp only [List.length_append] at this; omega
    have hian : (anp ++ ans)[j] = ans[j - anp.length] :=
      List.getElem_append_right hjp
    have hje : j - anp.length < ext.length := he ▸ hians
    have hmemzip : (ans[j - anp.length],
        ext[j - anp.length]) ∈ ans.zip ext := by
      have hzl : j - anp.length < (ans.zip ext).length := by
        simp [List.length_zip]; omega
      have hgz : (ans.zip ext)[j - anp.length] =
          (ans[j - anp.length], ext[j - anp.length]) :=
        List.getElem_zip
      rw [← hgz]
      exact List.getElem_mem hzl
    have hd := hkw _ hmemzip
    simp only at hd
    rw [hian, hd]
    rw [List.getElem_append_right (hp ▸ hcase)]
    have hix : (j - anp.length) = (j - p1.length) := by omega
    dsimp only
    simp only [hix]

/-- C2: with no explicit key rule, the compiled key is the tuple of all
declared parameter names, and every call derives the ordered tuple of the
positional parameter values, in declaration order — independently of
whatever the reused scratch dict held before the call, and also when a
trailing run of the arguments is passed by keyword — so two calls passing
equal positional/keyword arguments derive equal keys. -/
theorem memoize_default_key_is_arg_tuple {α : Type u} [DecidableEq α]
    {V : Type v}
    (an : List String) (p : List α) (st st' : MemoState α (List α) V)
    (f : List α → List (String × α) → Except String V)
    (anp ans : List String) (p1 ext : List α) (kw : List (String × α))
    (hnd : an.Nodup) (hlen : an.length = p.length)
    (hnd2 : (anp ++ ans).Nodup) (hp : anp.length = p1.length)
    (he : ans.length = ext.length)
    (hkwa : ∀ q ∈ kw, q.1 ∉ anp)
    (hkw : ∀ q ∈ ans.zip ext, revFind kw q.1 = some q.2) :
    (memoizeDefault V an []).keyProg
        (dictUpdateList st.shared (an.zip p)) = .ok p ∧
    (memoizeDefault V an []).keyProg
        (dictUpdateList st'.shared (an.zip p)) = .ok p ∧
    memoCall (memoizeDefault V an []).keyProg f an [] st p [] =
      finishCall (memoizeDefault V an []).keyProg f
        { st with shared := dictUpdateList st.shared (an.zip p) }
        (dictUpdateList st.shared (an.zip p)) p [] ∧
    (memoizeDefault V (anp ++ ans) []).keyProg
        (slowEnv (anp ++ ans) [] p1 kw) = .ok (p1 ++ ext) := by
  have key : ∀ sh : Env α,
      (memoizeDefault V an []).keyProg (dictUpdateList sh (an.zip p)) =
        .ok p := by
    intro sh
    show evalNames (dictUpdateList sh (an.zip p)) an = .ok p
    exact evalNames_ok_of_pointwise an p _ hlen
      (fun j hj hj2 => fastEnv_getElem an p sh hnd j hj hj2)
  exact ⟨key st.shared, key st'.shared,
    memoCall_fast _ _ _ _ _ _ _ (by simp) (Nat.le_of_eq hlen),
    slowEnv_kwargs_key anp ans p1 ext kw hnd2 hp he hkwa hkw⟩

/-- C2 witness at `f(x, y)` called as `f(7, 9)`: the derived key is the
tuple `[7, 9]` from both a fresh wrapper state and an arbitrary later
one. -/
theorem memoize_default_key_is_arg_tuple_witness :
    (memoizeDefault Nat ["x", "y"] []).keyProg
        (dictUpdateList (emptyEnv : Env Nat) (["x", "y"].zip [7, 9]))
      = .ok [7, 9] ∧
    (memoizeDefault Nat ["x", "y"] []).keyProg
        (dictUpdateList (dictInsert emptyEnv "x" 5) (["x", "y"].zip [7, 9]))
      = .ok [7, 9] ∧
    memoCall (memoizeDefault Nat ["x", "y"] []).keyProg
        (fun p _ => Except.ok (p.headD 0 + p.headD 0)) ["x", "y"] []
        initialState [7, 9] [] =
      finishCall (memoizeDefault Nat ["x", "y"] []).keyProg
        (fun p _ => Except.ok (p.headD 0 + p.headD 0))
        { cache := ([] : List (List Nat × Nat))
          shared := dictUpdateList emptyEnv (["x", "y"].zip [7, 9]) }
        (dictUpdateList (emptyEnv : Env Nat) (["x", "y"].zip [7, 9]))
        [7, 9] [] ∧
    (memoizeDefault Nat (["x"] ++ ["y"]) []).keyProg
        (slowEnv (["x"] ++ ["y"]) [] [7] [("y", 9)]) = .ok ([7] ++ [9]) :=
  memoize_default_key_is_arg_tuple ["x", "y"] [7, 9] initialState
    { cache := [([1, 2], 3)]
      shared := dictInsert emptyEnv "x" 5 }
    (fun p _ => Except.ok (p.headD 0 + p.headD 0))
    ["x"] ["y"] [7] [9] [("y", 9)]
    (by decide) rfl (by decide) rfl rfl (by decide) (by decide)

/-! ### C3 -/

/-- On the slow path, a call that omits a trailing run of defaulted
arguments builds the same name-to-argument mapping (on every declared
parameter name) as the call passing the default values explicitly. -/
theorem slowEnv_omit_defaults {α : Type u} (anp ans : List String)
    (defaults : List (String × α)) (p1 ext : List α)
    (hnd : (anp ++ ans).Nodup) (hp : anp.length = p1.length)
    (he : ans.length = ext.length)
    (hdef : ∀ q ∈ ans.zip ext, revFind defaults q.1 = some q.2) :
    ∀ n ∈ anp ++ ans,
      slowEnv (anp ++ ans) defaults p1 [] n =
        slowEnv (anp ++ ans) defaults (p1 ++ ext) [] n := by
  intro n hn
  obtain ⟨j, hj, rfl⟩ := List.mem_iff_getElem.mp hn
  have hlen2 : (anp ++ ans).length ≤ (p1 ++ ext).length := by
    simp [← hp, ← he]
  show dictUpdateList (dictUpdateList (dictUpdateList emptyEnv defaults)
      ((anp ++ ans).zip p1)) [] _ = _
  show dictUpdateList (dictUpdateList emptyEnv defaults)
      ((anp ++ ans).zip p1) _ = dictUpdateList (dictUpdateList emptyEnv
        defaults) ((anp ++ ans).zip (p1 ++ ext)) _
  rw [dictUpdateList_apply ((anp ++ ans).zip p1),
    dictUpdateList_apply ((anp ++ ans).zip (p1 ++ ext))]
  have hj2 : j < (p1 ++ ext).length := Nat.lt_of_lt_of_le hj hlen2
  rw [revFind_zip_get (anp ++ ans) (p1 ++ ext) hnd j hj hj2]
  by_cases hcase : j < p1.length
  · rw [revFind_zip_get (anp ++ ans) p1 hnd j hj hcase,
      List.getElem_append_left hcase]
  · push_neg at hcase
    rw [revFind_zip_get_none (anp ++ ans) p1 hnd j hj hcase]
    dsimp only
    have hjp : anp.length ≤ j := hp ▸ hcase
    have hians : j - anp.length < ans.length := by
      have := hj; simp only [List.length_append] at this; omega
    have hian : (anp ++ ans)[j] = ans[j - anp.length] :=
      List.getElem_append_right hjp
    have hix : (j - anp.length) = (j - p1.length) := by omega
    have hje : j - anp.length < ext.length := he ▸ hians
    have hmemzip : (ans[j - anp.length],
        ext[j - anp.length]) ∈ ans.zip ext := by
      have hzl : j - anp.length < (ans.zip ext).length := by
        simp [List.length_zip]; omega
      have hgz : (ans.zip ext)[j - anp.length] =
          (ans[j - anp.length], ext[j - anp.length]) :=
        List.getElem_zip
      rw [← hgz]
      exact List.getElem_mem hzl
    have hd := hdef _ hmemzip
    simp only at hd
    rw [hian, dictUpdateList_apply defaults, hd]
    rw [List.getElem_append_right (hp ▸ hcase)]
    dsimp only
    simp only [hix]

/-- C3: the default values captured at wrap time are merged into the
per-call mapping before key evaluation — a call omitting a trailing run of
defaulted arguments derives the same key as the call passing those same
values explicitly, and (when the first call succeeded) the second call
hits the very cache entry the first call used, without invoking the
function. -/
theorem memoize_default_args_same_entry {α : Type u} [DecidableEq α]
    {V : Type v}
    (an anp ans rule : List String) (dv p1 ext : List α)
    (f : List α → List (String × α) → Except String V)
    (st : MemoState α (List α) V) (v : V)
    (han : an = anp ++ ans)
    (hnd : an.Nodup) (hp : anp.length = p1.length)
    (he : ans.length = ext.length)
    (hne : mkDefaults an dv ≠ [])
    (hdef : ∀ q ∈ ans.zip ext, revFind (mkDefaults an dv) q.1 = some q.2)
    (hrule : ∀ n ∈ rule, n ∈ an)
    (h1 : (memoCall (fun env => evalNames env rule) f an
        (mkDefaults an dv) st p1 []).1 = .ok v) :
    evalNames (slowEnv an (mkDefaults an dv) p1 []) rule =
      evalNames (slowEnv an (mkDefaults an dv) (p1 ++ ext) []) rule ∧
    memoCall (fun env => evalNames env rule) f an (mkDefaults an dv)
        (memoCall (fun env => evalNames env rule) f an
          (mkDefaults an dv) st p1 []).2.1 (p1 ++ ext) []
      = (.ok v,
         (memoCall (fun env => evalNames env rule) f an
           (mkDefaults an dv) st p1 []).2.1, false) := by
  subst han
  have hkeys : evalNames (slowEnv (anp ++ ans) (mkDefaults (anp ++ ans) dv)
        p1 []) rule =
      evalNames (slowEnv (anp ++ ans) (mkDefaults (anp ++ ans) dv)
        (p1 ++ ext) []) rule :=
    evalNames_congr rule _ _
      (fun n hn => slowEnv_omit_defaults anp ans _ p1 ext hnd hp he hdef n
        (hrule n hn))
  refine ⟨hkeys, ?_⟩
  have hb : (!(([] : List (String × α)).isEmpty)
      || !(mkDefaults (anp ++ ans) dv).isEmpty) = true := by
    simp [List.isEmpty_eq_true, hne]
  rw [memoCall_slow _ _ _ _ _ _ _ hb] at h1 ⊢
  rw [memoCall_slow _ _ _ _ _ _ _ hb]
  obtain ⟨k, hk, hck, _⟩ := finishCall_ok_inv _ _ _ _ _ _ _ h1
  exact finishCall_hit _ _ _ _ _ _ _ _ (hkeys ▸ hk) hck

/-- C3 witness: `def f(x, y=2)` memoized with the default key; `f(1)` and
`f(1, 2)` derive the same key, and after `f(1)` the call `f(1, 2)` is
answered from the cache without invoking `f`. -/
theorem memoize_default_args_same_entry_witness :
    evalNames (slowEnv ["x", "y"] (mkDefaults ["x", "y"] [2]) [1] [])
        ["x", "y"] =
      evalNames (slowEnv ["x", "y"] (mkDefaults ["x", "y"] [2])
        ([1] ++ [2]) []) ["x", "y"] ∧
    memoCall (fun env => evalNames env ["x", "y"])
        (fun p _ => Except.ok (p.headD 0 * 10)) ["x", "y"]
        (mkDefaults ["x", "y"] [2])
        (memoCall (fun env => evalNames env ["x", "y"])
          (fun p _ => Except.ok (p.headD 0 * 10)) ["x", "y"]
          (mkDefaults ["x", "y"] [2]) initialState [1] []).2.1
        ([1] ++ [2]) []
      = (.ok 10,
         (memoCall (fun env => evalNames env ["x", "y"])
           (fun p _ => Except.ok (p.headD 0 * 10)) ["x", "y"]
           (mkDefaults ["x", "y"] [2]) initialState [1] []).2.1, false) :=
  memoize_default_args_same_entry ["x", "y"] ["x"] ["y"] ["x", "y"]
    [2] [1] [2] (fun p _ => Except.ok (p.headD 0 * 10)) initialState 10
    rfl (by decide) rfl rfl (by decide) (by decide) (by decide) rfl

/-! ### C6 -/

/-- C6: a key rule referencing a name that is not a declared parameter is
compiled and stored at wrap time without failure; the `NameError` surfaces
at the first call that evaluates it, propagates to the caller unmodified,
and that call neither invokes the wrapped function nor writes a cache
entry. -/
theorem memoize_bad_rule_fails_at_call {α : Type u} [DecidableEq α]
    {V : Type v}
    (rule an : List String) (n : String) (p : List α)
    (f : List α → List (String × α) → Except String V)
    (hn : n ∈ rule) (hna : n ∉ an) (hlen : an.length ≤ p.length) :
    (memoizeWithKey (V := V) rule an ([] : List (String × α))).keyProg
        = (fun env => evalNames env rule) ∧
    ∃ e,
      (memoizeWithKey (V := V) rule an ([] : List (String × α))).keyProg
          (dictUpdateList emptyEnv (an.zip p)) = .error e ∧
      memoCall
          (memoizeWithKey (V := V) rule an
            ([] : List (String × α))).keyProg f an [] initialState p []
        = (.error e,
           { cache := []
             shared := dictUpdateList emptyEnv (an.zip p) }, false) := by
  refine ⟨rfl, ?_⟩
  have henv : dictUpdateList (emptyEnv : Env α) (an.zip p) n = none := by
    rw [dictUpdateList_apply, revFind_eq_none]
    · rfl
    · intro q hq hq1
      exact hna (hq1 ▸ fst_mem_left_of_mem_zip hq)
  obtain ⟨e, he⟩ := evalNames_error_of_missing rule _ n hn henv
  refine ⟨e, he, ?_⟩
  rw [memoCall_fast _ _ _ _ _ _ _ (by simp) hlen]
  exact finishCall_key_error _ _ _ _ _ _ _ he

/-- C6 witness: the rule `"(z)"` on `def f(x)` wraps fine but the first
call `f(4)` raises the `NameError` for `z`, with `f` not invoked and the
cache still empty. -/
theorem memoize_bad_rule_fails_at_call_witness :
    (memoizeWithKey (V := Nat) ["z"] ["x"]
        ([] : List (String × Nat))).keyProg
        = (fun env => evalNames env ["z"]) ∧
    ∃ e,
      (memoizeWithKey (V := Nat) ["z"] ["x"]
          ([] : List (String × Nat))).keyProg
          (dictUpdateList emptyEnv (["x"].zip [4])) = .error e ∧
      memoCall
          (memoizeWithKey (V := Nat) ["z"] ["x"]
            ([] : List (String × Nat))).keyProg
          (fun p _ => Except.ok (p.headD 0 * p.headD 0)) ["x"] []
          initialState [4] []
        = (.error e,
           { cache := []
             shared := dictUpdateList emptyEnv (["x"].zip [4]) }, false) :=
  memoize_bad_rule_fails_at_call ["z"] ["x"] "z" [4]
    (fun p _ => Except.ok (p.headD 0 * p.headD 0))
    (by decide) (by decide) (by decide)

/-! ### C9 -/

/-- C9: when the wrapped function raises on a cache miss, the error
propagates unchanged, no cache entry is written for the derived key, and a
repeat of the call with the same arguments invokes the wrapped function
again (and sees the same error). -/
theorem memoize_wrapped_error_not_cached {α κ : Type u} {V : Type v}
    [DecidableEq κ]
    (keyProg : Env α → Except String κ)
    (f : List α → List (String × α) → Except String V)
    (an : List String) (defaults : List (String × α))
    (st : MemoState α κ V) (p : List α) (kw : List (String × α))
    (e : String)
    (hf : f p kw = .error e)
    (hmiss : ∀ k, keyProg (slowEnv an defaults p kw) = .ok k →
      cacheLookup st.cache k = none)
    (hmissF : ∀ k sh, keyProg (dictUpdateList sh (an.zip p)) = .ok k →
      cacheLookup st.cache k = none)
    (hkey : (∃ k, keyProg (slowEnv an defaults p kw) = .ok k) ∧
      (∀ sh, ∃ k, keyProg (dictUpdateList sh (an.zip p)) = .ok k))
    (hlen : an.length ≤ p.length) :
    (memoCall keyProg f an defaults st p kw).1 = .error e ∧
    (memoCall keyProg f an defaults st p kw).2.1.cache = st.cache ∧
    (memoCall keyProg f an defaults st p kw).2.2 = true ∧
    (memoCall keyProg f an defaults
      (memoCall keyProg f an defaults st p kw).2.1 p kw).2.2 = true := by
  cases hb : (!kw.isEmpty || !defaults.isEmpty) with
  | true =>
    rw [memoCall_slow _ _ _ _ _ _ _ hb]
    obtain ⟨k, hk⟩ := hkey.1
    have hc := hmiss k hk
    rw [finishCall_miss_error _ _ _ _ _ _ _ _ hk hc hf]
    refine ⟨rfl, rfl, rfl, ?_⟩
    rw [memoCall_slow _ _ _ _ _ _ _ hb,
      finishCall_miss_error _ _ _ _ _ _ _ _ hk hc hf]
  | false =>
    rw [memoCall_fast _ _ _ _ _ _ _ hb hlen]
    obtain ⟨k, hk⟩ := hkey.2 st.shared
    have hc : cacheLookup
        ({ st with shared := dictUpdateList st.shared (an.zip p) } :
          MemoState α κ V).cache k = none := hmissF k st.shared hk
    rw [finishCall_miss_error _ _ _ _ _ _ _ _ hk hc hf]
    refine ⟨rfl, rfl, rfl, ?_⟩
    rw [memoCall_fast _ _ _ _ _ _ _ hb hlen]
    simp only [dictUpdateList_idem]
    rw [finishCall_miss_error _ _ _ _ _ _ _ _ hk hc hf]

/-- C9 witness: a memoized function that raises on `f(4)`; the error comes
out, the cache stays empty, and the retry invokes the function again. -/
theorem memoize_wrapped_error_not_cached_witness :
    (memoCall (fun env => evalNames env ["x"])
        (fun _ _ => (Except.error "ValueError: boom" : Except String Nat))
        ["x"] [] initialState [4] []).1 = .error "ValueError: boom" ∧
    (memoCall (fun env => evalNames env ["x"])
        (fun _ _ => (Except.error "ValueError: boom" : Except String Nat))
        ["x"] [] initialState [4] []).2.1.cache
      = (initialState (α := Nat) (κ := List Nat) (V := Nat)).cache ∧
    (memoCall (fun env => evalNames env ["x"])
        (fun _ _ => (Except.error "ValueError: boom" : Except String Nat))
        ["x"] [] initialState [4] []).2.2 = true ∧
    (memoCall (fun env => evalNames env ["x"])
        (fun _ _ => (Except.error "ValueError: boom" : Except String Nat))
        ["x"] []
        (memoCall (fun env => evalNames env ["x"])
          (fun _ _ => (Except.error "ValueError: boom" : Except String Nat))
          ["x"] [] initialState [4] []).2.1 [4] []).2.2 = true :=
  memoize_wrapped_error_not_cached (fun env => evalNames env ["x"])
    (fun _ _ => (Except.error "ValueError: boom" : Except String Nat))
    ["x"] [] initialState [4] [] "ValueError: boom" rfl
    (fun k _ => rfl) (fun k _ _ => rfl)
    ⟨⟨[4], rfl⟩, fun sh => ⟨[4],
      by simp [dictUpdateList, dictInsert, evalNames]⟩⟩
    (by decide)

/-! ### DynamicVar lemmas -/

/-- Writing a thread's list makes it readable there. -/
theorem setStack_locals_self {V : Type u} (s : DynVarState V) (t : Nat)
    (vs : List (Option V)) : (setStack s t vs).locals t = some vs := by
  simp [setStack]

/-- Writing a thread's list leaves every other thread's slot unchanged. -/
theorem setStack_locals_other {V : Type u} (s : DynVarState V) (t u : Nat)
    (vs : List (Option V)) (h : u ≠ t) :
    (setStack s t vs).locals u = s.locals u := by
  simp [setStack, h]

/-- `_values()` on a thread that already has a list returns it with no
state change. -/
theorem valuesOf_some {V : Type u} (s : DynVarState V) (t : Nat)
    (vs : List (Option V)) (h : s.locals t = some vs) :
    valuesOf s t = (vs, s) := by
  simp [valuesOf, h]

/-- `_values()` on a thread touching the variable for the first time
creates the singleton sentinel stack. -/
theorem valuesOf_none {V : Type u} (s : DynVarState V) (t : Nat)
    (h : s.locals t = none) :
    valuesOf s t = ([none], setStack s t [none]) := by
  simp [valuesOf, h]

/-- `get()` only reads the calling thread's slot. -/
theorem dynGet_congr {V : Type u} (s s' : DynVarState V) (t : Nat)
    (h : s.locals t = s'.locals t) : dynGet s t = dynGet s' t := by
  unfold dynGet valuesOf
  rw [h]
  cases s'.locals t <;> rfl

/-- `get()` with a binding stack in place returns its top. -/
theorem dynGet_of_locals {V : Type u} (s : DynVarState V) (t : Nat)
    (vs : List (Option V)) (h : s.locals t = some vs) :
    dynGet s t = vs.getLast? := by
  unfold dynGet
  rw [valuesOf_some s t vs h]

/-- The push half of `bind` appends one entry to the calling thread's
stack. -/
theorem pushBinding_locals {V : Type u} (s : DynVarState V) (t : Nat)
    (vs : List (Option V)) (v : Option V) (h : s.locals t = some vs) :
    pushBinding s t v = setStack s t (vs ++ [v]) := by
  unfold pushBinding
  rw [valuesOf_some s t vs h]

/-- The push half of `bind` on a thread that never touched the variable
first creates the sentinel stack, then appends. -/
theorem pushBinding_locals_fresh {V : Type u} (s : DynVarState V) (t : Nat)
    (v : Option V) (h : s.locals t = none) :
    pushBinding s t v = setStack (setStack s t [none]) t ([none] ++ [v]) := by
  unfold pushBinding
  rw [valuesOf_none s t h]

/-- The `finally` pop drops the last entry of the calling thread's
stack. -/
theorem popBinding_locals {V : Type u} (s : DynVarState V) (t : Nat)
    (vs : List (Option V)) (h : s.locals t = some vs) :
    popBinding s t = setStack s t vs.dropLast := by
  unfold popBinding
  rw [h]
  rfl

/-- Resulting state of a `bind` scope: the body runs on the pushed state
and its final state is popped — on both the normal and the raising exit
path. -/
theorem dynBind_fst {V : Type u} {A : Type v} (s : DynVarState V) (t : Nat)
    (v : Option V)
    (body : DynVarState V → DynVarState V × Except String A) :
    (dynBind s t v body).1 = popBinding (body (pushBinding s t v)).1 t := by
  show (match body (pushBinding s t v) with
    | (s2, r) => (popBinding s2 t, r)).1 = _
  rcases hb : body (pushBinding s t v) with ⟨s2, r⟩
  rfl

/-- Result of a `bind` scope: whatever the body returned or raised,
unmodified. -/
theorem dynBind_snd {V : Type u} {A : Type v} (s : DynVarState V) (t : Nat)
    (v : Option V)
    (body : DynVarState V → DynVarState V × Except String A) :
    (dynBind s t v body).2 = (body (pushBinding s t v)).2 := by
  show (match body (pushBinding s t v) with
    | (s2, r) => (popBinding s2 t, r)).2 = _
  rcases hb : body (pushBinding s t v) with ⟨s2, r⟩
  rfl

/-! ### C4 -/

/-- C4: from a thread state with no active binding, `get()` sees the
sentinel; inside `bind(v1)` it sees `v1`; inside a nested `bind(v2)` it
sees `v2`; after the inner scope pops it sees `v1` again; after the outer
scope pops it sees the sentinel — and the inner pop also happens when the
inner scope's body raises. -/
theorem dynamicvar_nested_bind {V : Type u} (s : DynVarState V) (t : Nat)
    (v1 v2 : V) (e : String)
    (hs : s.locals t = none ∨ s.locals t = some [none]) :
    dynGet s t = some none ∧
    dynGet (pushBinding s t (some v1)) t = some (some v1) ∧
    dynGet (pushBinding (pushBinding s t (some v1)) t (some v2)) t
      = some (some v2) ∧
    dynGet (popBinding
      (pushBinding (pushBinding s t (some v1)) t (some v2)) t) t
      = some (some v1) ∧
    dynGet (popBinding (popBinding
      (pushBinding (pushBinding s t (some v1)) t (some v2)) t) t) t
      = some none ∧
    (dynBind (pushBinding s t (some v1)) t (some v2)
        (fun s2 => (s2, (Except.error e : Except String Unit)))).2
      = .error e ∧
    dynGet (dynBind (pushBinding s t (some v1)) t (some v2)
        (fun s2 => (s2, (Except.error e : Except String Unit)))).1 t
      = some (some v1) := by
  have hpush1 : (pushBinding s t (some v1)).locals t
      = some [none, some v1] := by
    rcases hs with h | h
    · rw [pushBinding_locals_fresh s t _ h, setStack_locals_self]
      rfl
    · rw [pushBinding_locals s t _ _ h, setStack_locals_self]
      rfl
  have hget0 : dynGet s t = some none := by
    rcases hs with h | h
    · unfold dynGet
      rw [valuesOf_none s t h]
      rfl
    · rw [dynGet_of_locals s t _ h]
      rfl
  have hpush2 : (pushBinding (pushBinding s t (some v1)) t
      (some v2)).locals t = some [none, some v1, some v2] := by
    rw [pushBinding_locals _ t _ _ hpush1, setStack_locals_self]
    rfl
  have hpop1 : (popBinding (pushBinding (pushBinding s t (some v1)) t
      (some v2)) t).locals t = some [none, some v1] := by
    rw [popBinding_locals _ t _ hpush2, setStack_locals_self]
    rfl
  have hpop0 : (popBinding (popBinding (pushBinding (pushBinding s t
      (some v1)) t (some v2)) t) t).locals t = some [none] := by
    rw [popBinding_locals _ t _ hpop1, setStack_locals_self]
    rfl
  have hg1 : dynGet (pushBinding s t (some v1)) t = some (some v1) := by
    rw [dynGet_of_locals _ t _ hpush1]; rfl
  have hg2 : dynGet (pushBinding (pushBinding s t (some v1)) t (some v2)) t
      = some (some v2) := by
    rw [dynGet_of_locals _ t _ hpush2]; rfl
  have hg3 : dynGet (popBinding (pushBinding (pushBinding s t (some v1)) t
      (some v2)) t) t = some (some v1) := by
    rw [dynGet_of_locals _ t _ hpop1]; rfl
  have hg4 : dynGet (popBinding (popBinding (pushBinding (pushBinding s t
      (some v1)) t (some v2)) t) t) t = some none := by
    rw [dynGet_of_locals _ t _ hpop0]; rfl
  exact ⟨hget0, hg1, hg2, hg3, hg4, rfl, hg3⟩

/-- C4 witness at a concrete fresh variable and scenario. -/
theorem dynamicvar_nested_bind_witness :
    dynGet (dynInit Nat) 0 = some none ∧
    dynGet (pushBinding (dynInit Nat) 0 (some 1)) 0 = some (some 1) ∧
    dynGet (pushBinding (pushBinding (dynInit Nat) 0 (some 1)) 0 (some 2)) 0
      = some (some 2) ∧
    dynGet (popBinding
      (pushBinding (pushBinding (dynInit Nat) 0 (some 1)) 0 (some 2)) 0) 0
      = some (some 1) ∧
    dynGet (popBinding (popBinding
      (pushBinding (pushBinding (dynInit Nat) 0 (some 1)) 0 (some 2)) 0) 0) 0
      = some none ∧
    (dynBind (pushBinding (dynInit Nat) 0 (some 1)) 0 (some 2)
        (fun s2 => (s2, (Except.error "KeyError" : Except String Unit)))).2
      = .error "KeyError" ∧
    dynGet (dynBind (pushBinding (dynInit Nat) 0 (some 1)) 0 (some 2)
        (fun s2 => (s2, (Except.error "KeyError" : Except String Unit)))).1 0
      = some (some 1) :=
  dynamicvar_nested_bind (dynInit Nat) 0 1 2 "KeyError" (Or.inl rfl)

/-! ### C5 -/

/-- A never-popped-sentinel stack: non-empty with the sentinel at the
bottom. -/
def goodStack {V : Type u} (s : DynVarState V) (t : Nat) : Prop :=
  ∀ vs, s.locals t = some vs → vs ≠ [] ∧ vs.head? = some none

/-- C5: `bind` pushes exactly one entry before the body runs, pops exactly
one entry on exit — for any body result, normal or raising, since the pop
is unconditional — so a balanced body returns the stack exactly to its
previous value: it never empties and its bottom sentinel entry is never
popped. -/
theorem dynamicvar_stack_invariant {V : Type u} {A : Type v}
    (s : DynVarState V) (t : Nat) (v : Option V)
    (body : DynVarState V → DynVarState V × Except String A)
    (hgood : goodStack s t)
    (hbody : ((body (pushBinding s t v)).1).locals t
      = (pushBinding s t v).locals t) :
    ∃ vs, (valuesOf s t).1 = vs ∧ vs ≠ [] ∧ vs.head? = some none ∧
      (pushBinding s t v).locals t = some (vs ++ [v]) ∧
      ((dynBind s t v body).1).locals t = some vs ∧
      goodStack ((dynBind s t v body).1) t := by
  rcases hloc : s.locals t with _ | vs0
  · have hvals : (valuesOf s t).1 = [none] := by
      rw [valuesOf_none s t hloc]
    have hpl : (pushBinding s t v).locals t = some ([none] ++ [v]) := by
      rw [pushBinding_locals_fresh s t v hloc, setStack_locals_self]
    rw [hpl] at hbody
    have hpop : ((dynBind s t v body).1).locals t = some [none] := by
      rw [dynBind_fst]
      rw [popBinding_locals _ t _ hbody, setStack_locals_self]
      rfl
    refine ⟨[none], hvals, by simp, rfl, hpl, hpop, fun vs hvs => ?_⟩
    rw [hpop] at hvs
    cases hvs
    exact ⟨by simp, rfl⟩
  · obtain ⟨hne, hhead⟩ := hgood vs0 hloc
    have hvals : (valuesOf s t).1 = vs0 := by
      rw [valuesOf_some s t vs0 hloc]
    have hpl : (pushBinding s t v).locals t = some (vs0 ++ [v]) := by
      rw [pushBinding_locals s t vs0 v hloc, setStack_locals_self]
    rw [hpl] at hbody
    have hpop : ((dynBind s t v body).1).locals t = some vs0 := by
      rw [dynBind_fst]
      rw [popBinding_locals _ t _ hbody, setStack_locals_self]
      simp
    refine ⟨vs0, hvals, hne, hhead, hpl, hpop, fun vs hvs => ?_⟩
    rw [hpop] at hvs
    cases hvs
    exact ⟨hne, hhead⟩

/-- C5 witness: a bind of `5` around a raising body still pushes one entry
and pops it, restoring the sentinel stack. -/
theorem dynamicvar_stack_invariant_witness :
    ∃ vs, (valuesOf (dynInit Nat) 0).1 = vs ∧ vs ≠ [] ∧
      vs.head? = some none ∧
      (pushBinding (dynInit Nat) 0 (some 5)).locals 0 = some (vs ++ [some 5]) ∧
      ((dynBind (dynInit Nat) 0 (some 5)
        (fun s2 => (s2, (Except.error "RuntimeError" :
          Except String Unit)))).1).locals 0 = some vs ∧
      goodStack ((dynBind (dynInit Nat) 0 (some 5)
        (fun s2 => (s2, (Except.error "RuntimeError" :
          Except String Unit)))).1) 0 :=
  dynamicvar_stack_invariant (dynInit Nat) 0 (some 5) _
    (fun vs h => by cases h) rfl

/-! ### C10 -/

/-- C10: the push and pop of a `bind` on thread `A` touch only thread
`A`'s slot; with a body that does not write other threads' slots, the
whole scope leaves every other thread's stack — and hence `get()` on any
other thread — exactly as it was, whether or not `A`'s binding is
active. -/
theorem dynamicvar_thread_isolation {V : Type u} {A : Type v}
    (s : DynVarState V) (tA tB : Nat) (v : Option V)
    (body : DynVarState V → DynVarState V × Except String A)
    (hne : tB ≠ tA)
    (hbody : ((body (pushBinding s tA v)).1).locals tB
      = (pushBinding s tA v).locals tB) :
    (pushBinding s tA v).locals tB = s.locals tB ∧
    dynGet (pushBinding s tA v) tB = dynGet s tB ∧
    ((dynBind s tA v body).1).locals tB = s.locals tB ∧
    dynGet (dynBind s tA v body).1 tB = dynGet s tB := by
  have hpush : (pushBinding s tA v).locals tB = s.locals tB := by
    unfold pushBinding
    rcases hloc : s.locals tA with _ | vs
    · rw [valuesOf_none s tA hloc]
      rw [setStack_locals_other _ _ _ _ hne, setStack_locals_other _ _ _ _ hne]
    · rw [valuesOf_some s tA vs hloc]
      rw [setStack_locals_other _ _ _ _ hne]
  have hbind : ((dynBind s tA v body).1).locals tB = s.locals tB := by
    rw [dynBind_fst]
    unfold popBinding
    rw [setStack_locals_other _ _ _ _ hne, hbody, hpush]
  exact ⟨hpush, dynGet_congr _ _ _ hpush, hbind, dynGet_congr _ _ _ hbind⟩

/-- C10 witness: a bind of `3` on thread `0` is invisible to `get()` on
thread `1`. -/
theorem dynamicvar_thread_isolation_witness :
    (pushBinding (dynInit Nat) 0 (some 3)).locals 1
      = (dynInit Nat).locals 1 ∧
    dynGet (pushBinding (dynInit Nat) 0 (some 3)) 1
      = dynGet (dynInit Nat) 1 ∧
    ((dynBind (dynInit Nat) 0 (some 3)
      (fun s2 => (s2, (Except.ok () : Except String Unit)))).1).locals 1
      = (dynInit Nat).locals 1 ∧
    dynGet (dynBind (dynInit Nat) 0 (some 3)
      (fun s2 => (s2, (Except.ok () : Except String Unit)))).1 1
      = dynGet (dynInit Nat) 1 :=
  dynamicvar_thread_isolation (dynInit Nat) 0 1 (some 3) _
    (by decide) rfl

/-! ### Registry lemmas and C7, C8 -/

/-- Dict assignment is found by lookup. -/
theorem cacheLookup_dictSet_self {κ : Type u} {β : Type v} [DecidableEq κ]
    (l : List (κ × β)) (k : κ) (v : β) :
    cacheLookup (dictSet l k v) k = some v := by
  induction l with
  | nil => simp [dictSet, cacheLookup]
  | cons kv rest ih =>
    obtain ⟨k', v'⟩ := kv
    by_cases h : k' = k
    · simp [dictSet, cacheLookup, h]
    · simp [dictSet, cacheLookup, h, ih]

/-- Dict assignment leaves other keys' lookups unchanged. -/
theorem cacheLookup_dictSet_other {κ : Type u} {β : Type v} [DecidableEq κ]
    (l : List (κ × β)) (k n : κ) (v : β) (h : k ≠ n) :
    cacheLookup (dictSet l k v) n = cacheLookup l n := by
  induction l with
  | nil => simp [dictSet, cacheLookup, h]
  | cons kv rest ih =>
    obtain ⟨k', v'⟩ := kv
    by_cases h' : k' = k
    · subst h'; simp [dictSet, cacheLookup, h]
    · simp [dictSet, cacheLookup, h', ih]

/-- C7: applying the registering decorator records the value under the
function's name and hands back the function itself unchanged; registering
the same name again silently overwrites. -/
theorem annotating_register_roundtrip {β : Type v} {γ δ : Type u}
    (d : AnnotatingDecorator β) (v v2 : β) (f : PyFunc γ δ) :
    (adRegister d v f).1 = f ∧
    adLookup (adRegister d v f).2 f.name = some v ∧
    (adRegister (adRegister d v f).2 v2 f).1 = f ∧
    adLookup (adRegister (adRegister d v f).2 v2 f).2 f.name = some v2 :=
  ⟨rfl, cacheLookup_dictSet_self _ _ _, rfl,
    cacheLookup_dictSet_self _ _ _⟩

/-- A sequence of registrations `decorator(value)(f)` applied in order. -/
def adRegisterAll {β : Type v} {γ δ : Type u} (d : AnnotatingDecorator β)
    (rs : List (β × PyFunc γ δ)) : AnnotatingDecorator β :=
  rs.foldl (fun d r => (adRegister d r.1 r.2).2) d

/-- Registrations of other names never make a name appear. -/
theorem adLookup_registerAll_absent {β : Type v} {γ δ : Type u}
    (rs : List (β × PyFunc γ δ)) (d : AnnotatingDecorator β) (n : String)
    (hd : adLookup d n = none) (h : ∀ r ∈ rs, r.2.name ≠ n) :
    adLookup (adRegisterAll d rs) n = none := by
  induction rs generalizing d with
  | nil => exact hd
  | cons r rs ih =>
    refine ih _ ?_ (fun q hq => h q (List.mem_cons_of_mem _ hq))
    show cacheLookup (dictSet d.lookup r.2.name r.1) n = none
    rw [cacheLookup_dictSet_other _ _ _ _ (h r (List.mem_cons_self _ _))]
    exact hd

/-- C8: a name never registered in a fresh registry looks up to the
explicit absent signal `none`, not to an error. -/
theorem annotating_lookup_never_registered {β : Type v} {γ δ : Type u}
    (rs : List (β × PyFunc γ δ)) (n : String)
    (h : ∀ r ∈ rs, r.2.name ≠ n) :
    adLookup (adRegisterAll adInit rs) n = none :=
  adLookup_registerAll_absent rs adInit n rfl h

/-- C8 witness: after registering `f` and `g`, looking up the never
registered name `"h"` yields `none`. -/
theorem annotating_lookup_never_registered_witness :
    adLookup (adRegisterAll adInit
      [((5 : Nat), ({ name := "f", fn := fun x : Nat => x + 1 })),
       ((7 : Nat), ({ name := "g", fn := fun x : Nat => x * 2 }))]) "h"
      = none :=
  annotating_lookup_never_registered _ "h" (by decide)

end PytypeUtils
